import Mathlib

/-!
# Verification of oh-my-claude-sub-agents core logic

Shallow embedding of the core pure logic of the `oh-my-claude-sub-agents`
repository, together with proofs of the testable properties stated in its
specification.

Embedded components:
* `src/core/maturity-analyzer.ts`: signal scoring, composite score, level
  thresholds (`analyzeMaturity`), and effective-level resolution
  (`resolveMaturityLevel`).
* `src/core/prompt-generator.ts`: the marker-region document operations
  `updateClaudeMdContent` and `removeOmcsaSection`, over `List Char`.
* `templates/hooks/pre-tool-use.mjs`: `readModeSync` fail-safe defaulting, and
  the workflow pipeline state machine of the post-tool-use logger hook.

JavaScript numbers are embedded as exact rationals (`ℚ`); all the constants
involved (0.20, 0.35, 0.25, 0.60, ...) and the concrete scenario arithmetic
are exact in both readings.  Strings are embedded as `List Char`.
-/

namespace OMCSA

/-! ## Maturity data model (`src/core/types.ts`) -/

/-- `MaturityLevel` union type: `'LOW' | 'MEDIUM' | 'HIGH'`. -/
inductive MaturityLevel where
  | LOW
  | MEDIUM
  | HIGH
deriving DecidableEq, Repr

/-- `MaturitySignals`: the four normalized signal scores (each in `[0,1]`). -/
structure MaturitySignals where
  agentNameReferences : ℚ
  workflowKeywords : ℚ
  taskToolUsage : ℚ
  delegationPatterns : ℚ
deriving DecidableEq, Repr

/-- `MaturityResult` (the `details : string[]` field, which is display-only
log text, is not embedded). -/
structure MaturityResult where
  level : MaturityLevel
  signals : MaturitySignals
  compositeScore : ℚ
deriving DecidableEq, Repr

/-! ## Maturity analyzer (`src/core/maturity-analyzer.ts`)

The three regex-list analyzers (`analyzeWorkflowKeywords`,
`analyzeTaskToolUsage`, `analyzeDelegationPatterns`) each reduce the input
text to a count of matched patterns, and `hasImportDirectives` reduces it to
a boolean; the scoring pipeline consumes only those counts.  We embed the
pipeline over the counts (`SignalCounts`): each input text and agent set
induces one `SignalCounts` value.  The agent-name matcher itself
(`analyzeAgentNameReferences`) is embedded explicitly further below for the
safe/unsafe-name claim. -/

/-- The per-text match data consumed by the scoring pipeline:
how many agents were found referenced, how many of the 10 workflow patterns,
8 task-tool patterns and 8 delegation patterns matched, and whether an
`@import` directive (`/@\w+\.md\b/`) is present. -/
structure SignalCounts where
  agentRefsFound : ℕ
  workflowMatches : ℕ
  taskToolMatches : ℕ
  delegationMatches : ℕ
  hasImport : Bool
deriving DecidableEq, Repr

/-- `WEIGHTS` from `maturity-analyzer.ts`. -/
structure Weights where
  agentNameReferences : ℚ
  workflowKeywords : ℚ
  taskToolUsage : ℚ
  delegationPatterns : ℚ

/-- The fixed weight configuration. -/
def WEIGHTS : Weights :=
  { agentNameReferences := 0.20
    workflowKeywords := 0.35
    taskToolUsage := 0.25
    delegationPatterns := 0.20 }

/-- `MEDIUM_THRESHOLD`. -/
def MEDIUM_THRESHOLD : ℚ := 0.25

/-- `HIGH_THRESHOLD`. -/
def HIGH_THRESHOLD : ℚ := 0.60

/-- Scoring step of `analyzeAgentNameReferences`:
`score = Math.min(found / Math.max(agents.length, 1), 1)`, with an early
`return {score: 0}` when `agents.length === 0`. -/
def agentRefScore (agentsLen found : ℕ) : ℚ :=
  if agentsLen = 0 then 0 else min ((found : ℚ) / max (agentsLen : ℚ) 1) 1

/-- Scoring step shared by the three pattern-count analyzers:
`Math.min(matches / cap, 1)` (cap 3 for workflow and task-tool, 2 for
delegation). -/
def cappedScore (m cap : ℕ) : ℚ :=
  min ((m : ℚ) / (cap : ℚ)) 1

/-- `analyzeMaturity`, embedded over the induced match counts: computes the
four signal scores, the weighted composite, the `@import` bonus, and the
threshold classification. -/
def analyzeMaturity (agentsLen : ℕ) (c : SignalCounts) : MaturityResult :=
  let signals : MaturitySignals :=
    { agentNameReferences := agentRefScore agentsLen c.agentRefsFound
      workflowKeywords := cappedScore c.workflowMatches 3
      taskToolUsage := cappedScore c.taskToolMatches 3
      delegationPatterns := cappedScore c.delegationMatches 2 }
  let base : ℚ :=
    signals.agentNameReferences * WEIGHTS.agentNameReferences +
    signals.workflowKeywords * WEIGHTS.workflowKeywords +
    signals.taskToolUsage * WEIGHTS.taskToolUsage +
    signals.delegationPatterns * WEIGHTS.delegationPatterns
  let compositeScore : ℚ := if c.hasImport then min (base + 0.1) 1 else base
  let level : MaturityLevel :=
    if HIGH_THRESHOLD ≤ compositeScore then .HIGH
    else if MEDIUM_THRESHOLD ≤ compositeScore then .MEDIUM
    else .LOW
  { level := level, signals := signals, compositeScore := compositeScore }

/-! Spec-side restatement of the composite/threshold rule (written from the
specification's words, to be compared against `analyzeMaturity`): weighted
sum `0.20/0.35/0.25/0.20` of the four signal scores, `+0.10` bonus capped at
`1.0` when an `@import` directive is present, and thresholds
`<0.25 → LOW`, `[0.25,0.60) → MEDIUM`, `≥0.60 → HIGH`. -/

/-- Spec-side weighted sum of the four signal scores. -/
def specWeightedSum (s : MaturitySignals) : ℚ :=
  s.agentNameReferences * 0.20 + s.workflowKeywords * 0.35 +
  s.taskToolUsage * 0.25 + s.delegationPatterns * 0.20

/-- Spec-side bonus rule: add `0.10`, capped at `1.0`, when present. -/
def specBonus (base : ℚ) (importPresent : Bool) : ℚ :=
  if importPresent then min (base + 0.10) 1 else base

/-- Spec-side threshold classification of a composite score. -/
def specLevelOf (composite : ℚ) : MaturityLevel :=
  if composite < 0.25 then .LOW
  else if composite < 0.60 then .MEDIUM
  else .HIGH

/-- `resolveMaturityLevel`'s CLI/config inputs are `string | undefined`;
`undefined` is embedded as `none`.  JavaScript `a || b` treats the empty
string as falsy. -/
def jsStrOr (a : Option String) (b : String) : String :=
  match a with
  | some s => if s = "" then b else s
  | none => b

/-- The `effective` string of `resolveMaturityLevel`:
`cliMaturity || configMode || 'auto'`. -/
def effectiveMode (cliMaturity configMode : Option String) : String :=
  jsStrOr cliMaturity (jsStrOr configMode "auto")

/-- `resolveMaturityLevel(cliMaturity, configMode, analyzed)`. -/
def resolveMaturityLevel (cliMaturity configMode : Option String)
    (analyzed : MaturityResult) : MaturityLevel :=
  let effective := effectiveMode cliMaturity configMode
  if effective = "auto" then analyzed.level
  else if effective = "LOW" then .LOW
  else if effective = "MEDIUM" then .MEDIUM
  else if effective = "HIGH" then .HIGH
  else .LOW

/-! ## Workflow pipeline state machine
(`templates/hooks/pre-tool-use.mjs`, post-tool-use logger section)

The hook's workflow-tracking block reads `workflow-state.json`, matches the
observed `subagent_type` against the configured workflows, and either
advances the active run, creates a new run, or leaves everything untouched.
We embed the persisted state as `Option WfState` (`none` = no state file /
deleted) and the emitted advisory as `Option WfAdvisory` (`none` = no
`message` field in the hook's output).  The `sessionId` and timestamp fields
of the state file are not embedded (wall-clock time); they are only ever
written together with the fields below. -/

/-- The persisted workflow run state (`workflow-state.json`). -/
structure WfState where
  active : Bool
  workflowName : String
  steps : List String
  currentStepIndex : ℕ
  completedSteps : List String
deriving DecidableEq, Repr

/-- The advisory `message` the hook can emit. -/
inductive WfAdvisory where
  /-- `[WORKFLOW: name] All N steps complete! ...` -/
  | completed (workflowName : String) (stepCount : ℕ)
  /-- `[WORKFLOW: name] Step k/N complete (agent). Next: delegate to next` -/
  | stepComplete (workflowName : String) (k stepCount : ℕ) (agent next : String)
  /-- `[WORKFLOW: name] Pipeline started! Step 1/N complete (agent). ...` -/
  | started (workflowName : String) (stepCount : ℕ) (agent next : String)
deriving DecidableEq, Repr

/-- Creation branch: the first configured workflow (in enumeration order)
whose step 0 equals the observed agent starts a new run with
`currentStepIndex = 1`; the new state is always written.  A "next step"
advisory is emitted only when the workflow has more than one step.  With no
match, the existing (absent or inactive) state is left untouched. -/
def wfCreate (workflows : List (String × List String)) (orig : Option WfState)
    (agent : String) : Option WfState × Option WfAdvisory :=
  match workflows.find? (fun w => w.2.head? = some agent) with
  | some (name, steps) =>
      let newState : WfState :=
        { active := true, workflowName := name, steps := steps,
          currentStepIndex := 1, completedSteps := [agent] }
      (some newState,
        if 1 < steps.length then
          some (.started name steps.length agent (steps.getD 1 ""))
        else none)
  | none => (orig, none)

/-- One delegation event of the workflow state machine: given the configured
workflows, the persisted run state, and the observed agent, produce the new
persisted state and the advisory.  Mirrors the hook's
`if (wfState && wfState.active) { ... } else { ... }` block; JavaScript
`steps[i]` for an out-of-range index is `undefined`, which compares unequal
to every agent string, embedded via `List.get?`. -/
def workflowTransition (workflows : List (String × List String))
    (state : Option WfState) (agent : String) :
    Option WfState × Option WfAdvisory :=
  match state with
  | some s =>
    if s.active then
      match s.steps.get? s.currentStepIndex with
      | some expected =>
        if agent = expected then
          let s' : WfState :=
            { s with completedSteps := s.completedSteps ++ [agent],
                     currentStepIndex := s.currentStepIndex + 1 }
          if s.steps.length ≤ s'.currentStepIndex then
            (none, some (.completed s.workflowName s.steps.length))
          else
            (some s', some (.stepComplete s.workflowName s'.currentStepIndex
              s.steps.length agent (s.steps.getD s'.currentStepIndex "")))
        else (some s, none)
      | none => (some s, none)
    else wfCreate workflows (some s) agent
  | none => wfCreate workflows none agent

/-! ## Install-mode fail-safe (`templates/hooks/pre-tool-use.mjs`) -/

/-- Outcome of reading `.omcsa/mode.json` from disk: the file may be absent,
unreadable/unparseable, or parsed into a record whose `mode` field is a
string or missing. -/
inductive ModeFileRead where
  | absent
  | unreadable
  | parsed (mode : Option String)
deriving DecidableEq, Repr

/-- `readModeSync`: returns `data.mode || 'standalone'` when the file exists
and parses, and `'standalone'` when it is absent or unreadable (the
`catch`/fallthrough path).  JavaScript `||` maps a missing or empty `mode`
field to `'standalone'`. -/
def readModeSync : ModeFileRead → String
  | .absent => "standalone"
  | .unreadable => "standalone"
  | .parsed m =>
    match m with
    | some s => if s = "" then "standalone" else s
    | none => "standalone"

/-- The hook's mode gate: `if (mode !== 'standalone')` it yields immediately
(emits `{continue: true}` and returns) instead of enforcing delegation. -/
def hookYields (mode : String) : Bool := mode ≠ "standalone"

/-! ## Strings and markers (`src/core/types.ts`, `src/core/prompt-generator.ts`)

Strings are embedded as `List Char`.  `String.prototype.indexOf` is embedded
as `firstIdx`, returning `none` for JavaScript's `-1`. -/

/-- `OMCSA_MARKER_START` from `types.ts`. -/
def OMCSA_MARKER_START : List Char :=
  "<!-- [OMCSA:START] - Auto-generated by oh-my-claude-sub-agents. Do not edit manually. -->".toList

/-- `OMCSA_MARKER_END` from `types.ts`. -/
def OMCSA_MARKER_END : List Char :=
  "<!-- [OMCSA:END] -->".toList

/-- `haystack.indexOf(pat)`: the least index at which `pat` occurs in the
list, or `none` when it does not occur. -/
def firstIdx (pat : List Char) : List Char → Option ℕ
  | [] => if pat.isPrefixOf ([] : List Char) then some 0 else none
  | c :: t =>
    if pat.isPrefixOf (c :: t) then some 0
    else (firstIdx pat t).map (· + 1)

/-- `pat` occurs in `s` at position `i`. -/
def occursAt (pat s : List Char) (i : ℕ) : Prop := pat <+: s.drop i

instance (pat s : List Char) (i : ℕ) : Decidable (occursAt pat s i) := by
  unfold occursAt; infer_instance

/-- `updateClaudeMdContent(existingContent, orchestratorPrompt)`: if both
markers are found the region from the start marker through the end marker is
replaced by the prompt; otherwise the prompt is appended after a separator
(`'\n'` if the document already ends in a newline, else `'\n\n'`) with one
trailing newline. -/
def updateClaudeMdContent (existingContent orchestratorPrompt : List Char) :
    List Char :=
  match firstIdx OMCSA_MARKER_START existingContent,
        firstIdx OMCSA_MARKER_END existingContent with
  | some startIdx, some endIdx =>
      existingContent.take startIdx ++ orchestratorPrompt ++
        existingContent.drop (endIdx + OMCSA_MARKER_END.length)
  | _, _ =>
      let separator : List Char :=
        if existingContent.getLast? = some '\n' then ['\n'] else ['\n', '\n']
      existingContent ++ separator ++ orchestratorPrompt ++ ['\n']

/-- The replacement `/\n{3,}/g → "\n\n"` of `removeOmcsaSection`, written as
a scan tracking the length `n` of the newline run read so far: each maximal
run of `k` newlines is emitted as `min k 2` newlines. -/
def collapseRun (n : ℕ) : List Char → List Char
  | [] => List.replicate (min n 2) '\n'
  | c :: t =>
    if c = '\n' then collapseRun (n + 1) t
    else List.replicate (min n 2) '\n' ++ c :: collapseRun 0 t

/-- `content.replace(/\n{3,}/g, '\n\n')`. -/
def collapseNewlines (s : List Char) : List Char := collapseRun 0 s

/-- The JavaScript whitespace characters relevant here (`String.prototype.trim`
strips the ASCII whitespace class; the exotic Unicode space code points it
also strips do not occur in this development). -/
def isJsWhitespace (c : Char) : Bool :=
  c = ' ' || c = '\t' || c = '\n' || c = '\r' || c = '\x0b' || c = '\x0c'

/-- `s.trim()`: strip whitespace from both ends. -/
def trimWs (s : List Char) : List Char :=
  ((s.dropWhile isJsWhitespace).reverse.dropWhile isJsWhitespace).reverse

/-- Spec-side checker: every run of consecutive newlines (with `k` newlines
already read) has length at most 2. -/
def newlineRunBound (k : ℕ) : List Char → Bool
  | [] => true
  | c :: t =>
    if c = '\n' then decide (k + 1 ≤ 2) && newlineRunBound (k + 1) t
    else newlineRunBound 0 t

/-- `removeOmcsaSection(content)`: with both markers present, excise from the
start marker through the end marker, collapse newline runs, trim, and append
one newline; otherwise return the content unchanged. -/
def removeOmcsaSection (content : List Char) : List Char :=
  match firstIdx OMCSA_MARKER_START content,
        firstIdx OMCSA_MARKER_END content with
  | some startIdx, some endIdx =>
      trimWs (collapseNewlines
        (content.take startIdx ++
         content.drop (endIdx + OMCSA_MARKER_END.length))) ++ ['\n']
  | _, _ => content

/-! ## Agent-name reference matcher (`src/core/maturity-analyzer.ts`) -/

/-- `SAFE_AGENT_NAME = /^[a-zA-Z0-9_-]+$/`: nonempty, and every character is
alphanumeric, a hyphen or an underscore. -/
def safeAgentName (name : List Char) : Bool :=
  !name.isEmpty && name.all (fun c => c.isAlphanum || c = '-' || c = '_')

/-- JavaScript `\w` (ASCII word character), used by the `\b` anchors. -/
def isWordChar (c : Char) : Bool := c.isAlphanum || c = '_'

/-- Case-insensitive list equality (character-wise `toLower`). -/
def eqCI (a b : List Char) : Bool := a.map Char.toLower = b.map Char.toLower

/-- `content.toLowerCase().includes(name.toLowerCase())`: case-insensitive
substring search, the fallback for unsafe agent names. -/
def containsCI (content name : List Char) : Bool :=
  decide (∃ i ≤ content.length, eqCI ((content.drop i).take name.length) name)

/-- A `\b` word boundary between an optional preceding and following
character (list ends count as non-word). -/
def wordBoundary (a b : Option Char) : Bool :=
  (a.elim false isWordChar) ≠ (b.elim false isWordChar)

/-- One position of the pattern `new RegExp("\\b" + name + "\\b", "i")` for
a safe (escape-free, literal) `name`: the name matches case-insensitively at
`i` with word boundaries on both sides. -/
def wordBoundaryMatchAt (name content : List Char) (i : ℕ) : Bool :=
  eqCI ((content.drop i).take name.length) name &&
  wordBoundary (if i = 0 then none else content.get? (i - 1)) name.head? &&
  wordBoundary (name.getLast?) (content.get? (i + name.length))

/-- `pattern.test(content)` for the word-boundary pattern of a safe name. -/
def wordBoundaryMatch (name content : List Char) : Bool :=
  decide (∃ i ≤ content.length, wordBoundaryMatchAt name content i)

/-- The per-agent test of `analyzeAgentNameReferences`: unsafe names fall
back to case-insensitive substring search; safe names use the word-boundary
case-insensitive pattern (for a safe name `escapeRegex` is the identity, so
the pattern is the literal name between `\b` anchors). -/
def agentNameMatched (name content : List Char) : Bool :=
  if safeAgentName name then wordBoundaryMatch name content
  else containsCI content name

/-- The `found` counter of `analyzeAgentNameReferences`. -/
def countAgentRefs (content : List Char) (agentNames : List (List Char)) : ℕ :=
  (agentNames.filter (fun n => agentNameMatched n content)).length

/-- The match counts of concrete scenario 4 of the specification: one of two
agents referenced (score `0.5`), three workflow matches (score `1.0`), no
task-tool or delegation matches, no `@import` directive. -/
def scenarioCounts : SignalCounts :=
  { agentRefsFound := 1, workflowMatches := 3, taskToolMatches := 0,
    delegationMatches := 0, hasImport := false }

/-- `scenarioCounts` with only one workflow match. -/
def scenarioCountsFewer : SignalCounts :=
  { agentRefsFound := 1, workflowMatches := 1, taskToolMatches := 0,
    delegationMatches := 0, hasImport := false }

/-- The signal-score vector of concrete scenario 4. -/
def scenarioSignals : MaturitySignals :=
  { agentNameReferences := 0.5, workflowKeywords := 1, taskToolUsage := 0,
    delegationPatterns := 0 }

/-- A concrete analyzed result with level `HIGH`. -/
def sampleHighResult : MaturityResult :=
  { level := .HIGH
    signals := { agentNameReferences := 1, workflowKeywords := 1,
                 taskToolUsage := 0, delegationPatterns := 1 }
    compositeScore := 0.71 }

/-! ## Helper lemmas -/

/-- The threshold classification of `analyzeMaturity` agrees with the
spec-side `specLevelOf`. -/
theorem thresholdLevel_eq_specLevelOf (q : ℚ) :
    (if HIGH_THRESHOLD ≤ q then MaturityLevel.HIGH
     else if MEDIUM_THRESHOLD ≤ q then MaturityLevel.MEDIUM
     else MaturityLevel.LOW) = specLevelOf q := by
  unfold specLevelOf HIGH_THRESHOLD MEDIUM_THRESHOLD
  split_ifs <;> first | rfl | linarith

/-- `agentRefScore` is monotone in the found-count. -/
theorem agentRefScore_mono (n : ℕ) {f f' : ℕ} (h : f ≤ f') :
    agentRefScore n f ≤ agentRefScore n f' := by
  unfold agentRefScore
  split_ifs with hn
  · exact le_rfl
  · refine min_le_min ?_ le_rfl
    have hpos : (0 : ℚ) < max (n : ℚ) 1 := lt_of_lt_of_le one_pos (le_max_right _ _)
    exact (div_le_div_right hpos).mpr (by exact_mod_cast h)

/-- `cappedScore` is monotone in the match count. -/
theorem cappedScore_mono {m m' : ℕ} (cap : ℕ) (h : m ≤ m') :
    cappedScore m cap ≤ cappedScore m' cap := by
  unfold cappedScore
  refine min_le_min ?_ le_rfl
  rcases Nat.eq_zero_or_pos cap with hc | hc
  · subst hc; simp
  · have hpos : (0 : ℚ) < (cap : ℚ) := by exact_mod_cast hc
    exact (div_le_div_right hpos).mpr (by exact_mod_cast h)

/-! ### Occurrence and first-index lemmas -/

theorem occursAt_zero {pat s : List Char} : occursAt pat s 0 ↔ pat <+: s := by
  simp [occursAt]

theorem occursAt_cons_succ {pat : List Char} {c : Char} {t : List Char} {j : ℕ} :
    occursAt pat (c :: t) (j + 1) ↔ occursAt pat t j := by
  simp [occursAt]

theorem occursAt_nil {pat : List Char} (hpat : pat ≠ []) (i : ℕ) :
    ¬ occursAt pat ([] : List Char) i := by
  simp only [occursAt, List.drop_nil]
  intro hp
  exact hpat (List.prefix_nil.mp hp)

theorem firstIdx_nil {pat : List Char} (hpat : pat ≠ []) :
    firstIdx pat ([] : List Char) = none := by
  cases pat with
  | nil => exact absurd rfl hpat
  | cons c t => rfl

theorem firstIdx_cons (pat : List Char) (c : Char) (t : List Char) :
    firstIdx pat (c :: t) =
      if pat.isPrefixOf (c :: t) then some 0 else (firstIdx pat t).map (· + 1) :=
  rfl

theorem firstIdx_eq_some_iff {pat : List Char} (hpat : pat ≠ []) (s : List Char)
    (i : ℕ) :
    firstIdx pat s = some i ↔
      occursAt pat s i ∧ ∀ j, j < i → ¬ occursAt pat s j := by
  induction s generalizing i with
  | nil =>
      rw [firstIdx_nil hpat]
      constructor
      · intro h; cases h
      · rintro ⟨h1, -⟩; exact absurd h1 (occursAt_nil hpat i)
  | cons c t ih =>
      rw [firstIdx_cons]
      by_cases hp : pat.isPrefixOf (c :: t) = true
      · rw [if_pos hp]
        have hocc0 : occursAt pat (c :: t) 0 :=
          occursAt_zero.mpr (List.isPrefixOf_iff_prefix.mp hp)
        constructor
        · intro h
          cases h
          exact ⟨hocc0, fun j hj => absurd hj (by omega)⟩
        · rintro ⟨hocc, hmin⟩
          rcases Nat.eq_zero_or_pos i with rfl | hi
          · rfl
          · exact absurd hocc0 (hmin 0 hi)
      · rw [if_neg hp]
        constructor
        · intro h
          obtain ⟨i', hi', hie⟩ := Option.map_eq_some'.mp h
          subst hie
          obtain ⟨hocc, hmin⟩ := (ih i').mp hi'
          refine ⟨occursAt_cons_succ.mpr hocc, ?_⟩
          intro j hj
          cases j with
          | zero =>
              intro hc
              exact hp (List.isPrefixOf_iff_prefix.mpr (occursAt_zero.mp hc))
          | succ j' =>
              intro hc
              exact hmin j' (by omega) (occursAt_cons_succ.mp hc)
        · rintro ⟨hocc, hmin⟩
          cases i with
          | zero =>
              exact absurd (List.isPrefixOf_iff_prefix.mpr (occursAt_zero.mp hocc)) hp
          | succ i' =>
              have hsome : firstIdx pat t = some i' :=
                (ih i').mpr ⟨occursAt_cons_succ.mp hocc,
                  fun j hj hc => hmin (j + 1) (by omega) (occursAt_cons_succ.mpr hc)⟩
              rw [hsome]
              rfl

theorem firstIdx_eq_none_iff {pat : List Char} (hpat : pat ≠ []) (s : List Char) :
    firstIdx pat s = none ↔ ∀ j, ¬ occursAt pat s j := by
  induction s with
  | nil =>
      rw [firstIdx_nil hpat]
      exact ⟨fun _ j => occursAt_nil hpat j, fun _ => rfl⟩
  | cons c t ih =>
      rw [firstIdx_cons]
      by_cases hp : pat.isPrefixOf (c :: t) = true
      · rw [if_pos hp]
        constructor
        · intro h; cases h
        · intro hall
          exact absurd (occursAt_zero.mpr (List.isPrefixOf_iff_prefix.mp hp))
            (hall 0)
      · rw [if_neg hp, Option.map_eq_none', ih]
        constructor
        · intro hall j
          cases j with
          | zero =>
              intro hc
              exact hp (List.isPrefixOf_iff_prefix.mpr (occursAt_zero.mp hc))
          | succ j' =>
              intro hc
              exact hall j' (occursAt_cons_succ.mp hc)
        · intro hall j hc
          exact hall (j + 1) (occursAt_cons_succ.mpr hc)

/-- A prefix of a long-enough left part of an append is a prefix of the left
part. -/
theorem pre_of_append_of_le {pat x y : List Char} (h : pat <+: x ++ y)
    (hl : pat.length ≤ x.length) : pat <+: x := by
  rw [List.prefix_iff_eq_take] at h ⊢
  rwa [List.take_append_eq_append_take, Nat.sub_eq_zero_of_le hl,
    List.take_zero, List.append_nil] at h

/-- An occurrence inside `l.take m` is an occurrence in `l`, strictly before
`m`. -/
theorem occursAt_of_take {pat l : List Char} {m j : ℕ} (hpat : pat ≠ [])
    (h : occursAt pat (l.take m) j) : occursAt pat l j ∧ j < m := by
  have hlen : pat.length ≤ (l.take m).length - j := by
    have := h.length_le
    simp only [List.length_drop] at this
    exact this
  have hpos : 0 < pat.length := List.length_pos.mpr hpat
  have hjm : j < m := by
    simp only [List.length_take] at hlen
    omega
  refine ⟨?_, hjm⟩
  unfold occursAt at h ⊢
  rw [List.drop_take] at h
  exact h.trans (List.take_prefix _ _)

/-- The first occurrence of `pat` in `a ++ b` given: `pat` occurs first in
`b` at `i`, `pat` does not occur inside `a`, and no proper suffix of `pat`
(of length `pat.length - k`) is how `b` starts (no straddling occurrence). -/
theorem firstIdx_append_occ {pat : List Char} (a b : List Char) (i : ℕ)
    (hpat : pat ≠ [])
    (hocc : occursAt pat b i)
    (hmin : ∀ j, j < i → ¬ occursAt pat b j)
    (ha : ∀ j, ¬ occursAt pat a j)
    (hstr : ∀ k, 0 < k → k < pat.length →
      pat.drop k ≠ b.take (pat.length - k)) :
    firstIdx pat (a ++ b) = some (a.length + i) := by
  rw [firstIdx_eq_some_iff hpat]
  constructor
  · unfold occursAt at hocc ⊢
    rwa [List.drop_append_eq_append_drop,
      List.drop_eq_nil_of_le (by omega : a.length ≤ a.length + i),
      Nat.add_sub_cancel_left, List.nil_append]
  · intro j hj hcj
    unfold occursAt at hcj
    rcases le_or_lt a.length j with hja | hja
    · rw [List.drop_append_eq_append_drop, List.drop_eq_nil_of_le hja,
        List.nil_append] at hcj
      exact hmin (j - a.length) (by omega) hcj
    · rw [List.drop_append_eq_append_drop,
        Nat.sub_eq_zero_of_le (le_of_lt hja), List.drop_zero] at hcj
      have hlend : (a.drop j).length = a.length - j := List.length_drop _ _
      rcases le_or_lt pat.length (a.length - j) with hk | hk
      · exact ha j (pre_of_append_of_le hcj (by omega))
      · have hktake : pat = a.drop j ++ b.take (pat.length - (a.length - j)) := by
          have h1 := List.prefix_iff_eq_take.mp hcj
          rwa [List.take_append_eq_append_take,
            List.take_of_length_le (by omega : (a.drop j).length ≤ pat.length),
            hlend] at h1
        have hdropk : pat.drop (a.length - j) =
            b.take (pat.length - (a.length - j)) := by
          conv_lhs => rw [hktake]
          rw [List.drop_append_eq_append_drop,
            List.drop_eq_nil_of_le (le_of_eq hlend), hlend, Nat.sub_self,
            List.drop_zero, List.nil_append]
        exact hstr (a.length - j) (by omega) hk hdropk

/-! ### Concrete facts about the two markers -/

theorem markerStart_ne_nil : OMCSA_MARKER_START ≠ [] := by decide

theorem markerEnd_ne_nil : OMCSA_MARKER_END ≠ [] := by decide

theorem markerEnd_length_le :
    OMCSA_MARKER_END.length ≤ OMCSA_MARKER_START.length := by decide

theorem newline_not_mem_markerStart : ('\n' : Char) ∉ OMCSA_MARKER_START := by
  decide

theorem newline_not_mem_markerEnd : ('\n' : Char) ∉ OMCSA_MARKER_END := by
  decide

/-- The start marker has no nontrivial self-overlap (no proper suffix of it
is also how it starts). -/
theorem markerStart_overlapFree :
    ∀ k, k < OMCSA_MARKER_START.length → (0 < k →
      OMCSA_MARKER_START.drop k ≠
        OMCSA_MARKER_START.take (OMCSA_MARKER_START.length - k)) := by decide

/-- No proper suffix of the end marker is how the start marker starts. -/
theorem markerEnd_markerStart_crossFree :
    ∀ k, k < OMCSA_MARKER_END.length → (0 < k →
      OMCSA_MARKER_END.drop k ≠
        OMCSA_MARKER_START.take (OMCSA_MARKER_END.length - k)) := by decide

/-- There is no straddling occurrence of a marker `pat` at the boundary of
`_ ++ (p ++ x)` when `p` starts with the start marker and no proper suffix
of `pat` matches how the start marker begins. -/
theorem straddle_free_of_markerPre {pat : List Char} (p x : List Char)
    (hp : OMCSA_MARKER_START <+: p)
    (hlen : pat.length ≤ OMCSA_MARKER_START.length)
    (hcross : ∀ k, k < pat.length → (0 < k →
      pat.drop k ≠ OMCSA_MARKER_START.take (pat.length - k))) :
    ∀ k, 0 < k → k < pat.length →
      pat.drop k ≠ (p ++ x).take (pat.length - k) := by
  intro k hk hk' heq
  have hplen : OMCSA_MARKER_START.length ≤ p.length := hp.length_le
  have h1 : (p ++ x).take (pat.length - k) = p.take (pat.length - k) := by
    rw [List.take_append_eq_append_take,
      Nat.sub_eq_zero_of_le (by omega : pat.length - k ≤ p.length),
      List.take_zero, List.append_nil]
  have h2 : p.take (pat.length - k) =
      OMCSA_MARKER_START.take (pat.length - k) := by
    obtain ⟨r, rfl⟩ := hp
    rw [List.take_append_eq_append_take,
      Nat.sub_eq_zero_of_le
        (by omega : pat.length - k ≤ OMCSA_MARKER_START.length),
      List.take_zero, List.append_nil]
  exact hcross k hk' hk (heq.trans (h1.trans h2))

/-- A newline-free pattern that does not occur in `doc` does not occur in
`doc ++ sep` when `sep` is all newlines. -/
theorem no_occursAt_append_nl {pat : List Char} (hpat : pat ≠ [])
    (hnl : ('\n' : Char) ∉ pat) (doc sep : List Char)
    (hdoc : ∀ j, ¬ occursAt pat doc j) (hsep : ∀ c ∈ sep, c = '\n') :
    ∀ j, ¬ occursAt pat (doc ++ sep) j := by
  intro j hc
  unfold occursAt at hc
  rcases le_or_lt doc.length j with hj | hj
  · rw [List.drop_append_eq_append_drop, List.drop_eq_nil_of_le hj,
      List.nil_append] at hc
    obtain ⟨c, hcmem⟩ := List.exists_mem_of_ne_nil pat hpat
    have hc1 : c ∈ sep := List.drop_subset _ _ (hc.subset hcmem)
    rw [hsep c hc1] at hcmem
    exact hnl hcmem
  · rw [List.drop_append_eq_append_drop,
      Nat.sub_eq_zero_of_le (le_of_lt hj), List.drop_zero] at hc
    have hlend : (doc.drop j).length = doc.length - j := List.length_drop _ _
    rcases le_or_lt pat.length (doc.length - j) with hk | hk
    · exact hdoc j (pre_of_append_of_le hc (by omega))
    · obtain ⟨r, hr⟩ := hc
      have hstep : pat.drop (doc.length - j) <+: sep := by
        have hdall : (doc.drop j ++ sep).drop (doc.length - j) = sep := by
          rw [List.drop_append_eq_append_drop,
            List.drop_eq_nil_of_le (le_of_eq hlend), hlend, Nat.sub_self,
            List.drop_zero, List.nil_append]
        rw [← hdall, ← hr, List.drop_append_eq_append_drop,
          Nat.sub_eq_zero_of_le (by omega : doc.length - j ≤ pat.length),
          List.drop_zero]
        exact List.prefix_append _ _
      have hne : pat.drop (doc.length - j) ≠ [] := by
        intro h0
        have := congrArg List.length h0
        simp only [List.length_drop, List.length_nil] at this
        omega
      obtain ⟨c, hcmem⟩ := List.exists_mem_of_ne_nil _ hne
      have hc1 : c ∈ sep := hstep.subset hcmem
      have hc2 : c ∈ pat := List.drop_subset _ _ hcmem
      rw [hsep c hc1] at hc2
      exact hnl hc2

/-- The end marker of a well-formed prompt `p` (first end-marker occurrence
exactly at the tail) stays the first occurrence in `p ++ x`. -/
theorem markerEnd_occ_in_append (p x : List Char)
    (hEp : OMCSA_MARKER_END.length ≤ p.length)
    (hpE : occursAt OMCSA_MARKER_END p (p.length - OMCSA_MARKER_END.length))
    (hpEmin : ∀ j, j < p.length - OMCSA_MARKER_END.length →
      ¬ occursAt OMCSA_MARKER_END p j) :
    occursAt OMCSA_MARKER_END (p ++ x) (p.length - OMCSA_MARKER_END.length)
    ∧ ∀ j, j < p.length - OMCSA_MARKER_END.length →
        ¬ occursAt OMCSA_MARKER_END (p ++ x) j := by
  constructor
  · unfold occursAt at hpE ⊢
    rw [List.drop_append_eq_append_drop,
      Nat.sub_eq_zero_of_le
        (by omega : p.length - OMCSA_MARKER_END.length ≤ p.length),
      List.drop_zero]
    exact hpE.trans (List.prefix_append _ _)
  · intro j hj hc
    unfold occursAt at hc
    rw [List.drop_append_eq_append_drop,
      Nat.sub_eq_zero_of_le (by omega : j ≤ p.length), List.drop_zero] at hc
    refine hpEmin j hj (pre_of_append_of_le hc ?_)
    rw [List.length_drop]
    omega

/-- Dropping the first two chunks of a triple append. -/
theorem drop_two_chunks (a p x : List Char) :
    (a ++ (p ++ x)).drop (a.length + p.length) = x := by
  rw [List.drop_append_eq_append_drop,
    List.drop_eq_nil_of_le (by omega : a.length ≤ a.length + p.length),
    List.nil_append, Nat.add_sub_cancel_left, List.drop_append_eq_append_drop,
    List.drop_eq_nil_of_le (le_refl p.length), List.nil_append, Nat.sub_self,
    List.drop_zero]

/-! ## Claim theorems: maturity analyzer -/

/-- C1: `analyzeMaturity` computes the composite score as the weighted sum
`agentRef*0.20 + workflow*0.35 + taskTool*0.25 + delegation*0.20` of the
signal scores, adds `+0.10` (capped at `1.0`) exactly when an `@import`
directive is present, and classifies `<0.25 → LOW`, `[0.25,0.60) → MEDIUM`,
`≥0.60 → HIGH`; in particular signal scores `0.5 / 1.0 / 0 / 0` with no
bonus give composite `0.45` and level `MEDIUM`. -/
theorem analyzeMaturity_composite_spec (agentsLen : ℕ) (c : SignalCounts) :
    (analyzeMaturity agentsLen c).compositeScore
      = specBonus (specWeightedSum (analyzeMaturity agentsLen c).signals)
          c.hasImport
    ∧ (analyzeMaturity agentsLen c).level
      = specLevelOf (analyzeMaturity agentsLen c).compositeScore
    ∧ (analyzeMaturity 2 scenarioCounts).signals = scenarioSignals
    ∧ (analyzeMaturity 2 scenarioCounts).compositeScore = 0.45
    ∧ (analyzeMaturity 2 scenarioCounts).level = .MEDIUM := by
  refine ⟨?_, ?_, ?_, ?_, ?_⟩
  · cases hc : c.hasImport <;>
      simp [analyzeMaturity, specBonus, specWeightedSum, WEIGHTS, hc] <;>
      norm_num
  · simp only [analyzeMaturity]
    exact thresholdLevel_eq_specLevelOf _
  · simp [analyzeMaturity, agentRefScore, cappedScore, scenarioCounts,
      scenarioSignals, MaturitySignals.mk.injEq]
    norm_num
  · simp [analyzeMaturity, agentRefScore, cappedScore, WEIGHTS, scenarioCounts]
    norm_num
  · simp [analyzeMaturity, agentRefScore, cappedScore, WEIGHTS,
      HIGH_THRESHOLD, MEDIUM_THRESHOLD, scenarioCounts]
    norm_num

/-- C3: for a fixed agent set, more matches of any signal type (all else
equal, same `@import` status) never lowers the composite score: the
composite is monotone in every match count. -/
theorem analyzeMaturity_monotone (agentsLen : ℕ) (c c' : SignalCounts)
    (h1 : c.agentRefsFound ≤ c'.agentRefsFound)
    (h2 : c.workflowMatches ≤ c'.workflowMatches)
    (h3 : c.taskToolMatches ≤ c'.taskToolMatches)
    (h4 : c.delegationMatches ≤ c'.delegationMatches)
    (h5 : c.hasImport = c'.hasImport) :
    (analyzeMaturity agentsLen c).compositeScore
      ≤ (analyzeMaturity agentsLen c').compositeScore := by
  have ha := agentRefScore_mono agentsLen h1
  have hw := cappedScore_mono 3 h2
  have ht := cappedScore_mono 3 h3
  have hd := cappedScore_mono 2 h4
  have hbase :
      agentRefScore agentsLen c.agentRefsFound * WEIGHTS.agentNameReferences +
        cappedScore c.workflowMatches 3 * WEIGHTS.workflowKeywords +
        cappedScore c.taskToolMatches 3 * WEIGHTS.taskToolUsage +
        cappedScore c.delegationMatches 2 * WEIGHTS.delegationPatterns
      ≤ agentRefScore agentsLen c'.agentRefsFound * WEIGHTS.agentNameReferences +
        cappedScore c'.workflowMatches 3 * WEIGHTS.workflowKeywords +
        cappedScore c'.taskToolMatches 3 * WEIGHTS.taskToolUsage +
        cappedScore c'.delegationMatches 2 * WEIGHTS.delegationPatterns := by
    unfold WEIGHTS
    refine add_le_add (add_le_add (add_le_add ?_ ?_) ?_) ?_ <;>
      apply mul_le_mul_of_nonneg_right (by assumption) (by norm_num)
  simp only [analyzeMaturity, h5]
  cases c'.hasImport with
  | false => simpa using hbase
  | true =>
      simp only [if_true]
      exact min_le_min (add_le_add hbase le_rfl) le_rfl

/-- C3 witness: a text with three workflow matches instead of one (all else
equal) scores at least as high. -/
theorem analyzeMaturity_monotone_witness :
    (analyzeMaturity 2 scenarioCountsFewer).compositeScore
      ≤ (analyzeMaturity 2 scenarioCounts).compositeScore :=
  analyzeMaturity_monotone 2 _ _ (le_refl 1) (by decide) (le_refl 0)
    (le_refl 0) rfl

/-- C2: `resolveMaturityLevel` uses the explicit flag when present, else the
persisted config mode, else the literal `"auto"`; `"auto"` yields the
analyzed level, literal level names pass through, and the legacy `"full"`
yields `LOW`; in particular the flags `(undefined, "auto")` with an analyzed
`HIGH` return `HIGH`. -/
theorem resolveMaturityLevel_spec :
    (∀ (s : String) (cfg : Option String), s ≠ "" →
      effectiveMode (some s) cfg = s)
    ∧ (∀ t : String, t ≠ "" → effectiveMode none (some t) = t)
    ∧ effectiveMode none none = "auto"
    ∧ (∀ (cli cfg : Option String) (a : MaturityResult),
        effectiveMode cli cfg = "auto" → resolveMaturityLevel cli cfg a = a.level)
    ∧ (∀ (cli cfg : Option String) (a : MaturityResult),
        effectiveMode cli cfg = "LOW" → resolveMaturityLevel cli cfg a = .LOW)
    ∧ (∀ (cli cfg : Option String) (a : MaturityResult),
        effectiveMode cli cfg = "MEDIUM" → resolveMaturityLevel cli cfg a = .MEDIUM)
    ∧ (∀ (cli cfg : Option String) (a : MaturityResult),
        effectiveMode cli cfg = "HIGH" → resolveMaturityLevel cli cfg a = .HIGH)
    ∧ (∀ (cli cfg : Option String) (a : MaturityResult),
        effectiveMode cli cfg = "full" → resolveMaturityLevel cli cfg a = .LOW)
    ∧ (∀ a : MaturityResult, a.level = .HIGH →
        resolveMaturityLevel none (some "auto") a = .HIGH) := by
  refine ⟨?_, ?_, ?_, ?_, ?_, ?_, ?_, ?_, ?_⟩
  · intro s cfg hs; simp [effectiveMode, jsStrOr, hs]
  · intro t ht; simp [effectiveMode, jsStrOr, ht]
  · rfl
  · intro cli cfg a h; simp [resolveMaturityLevel, h]
  · intro cli cfg a h; simp [resolveMaturityLevel, h]
  · intro cli cfg a h; simp [resolveMaturityLevel, h]
  · intro cli cfg a h; simp [resolveMaturityLevel, h]
  · intro cli cfg a h; simp [resolveMaturityLevel, h]
  · intro a h; simp [resolveMaturityLevel, effectiveMode, jsStrOr, h]

/-- C2 witness. -/
theorem resolveMaturityLevel_spec_witness :
    effectiveMode (some "HIGH") (some "auto") = "HIGH"
    ∧ effectiveMode none (some "MEDIUM") = "MEDIUM"
    ∧ resolveMaturityLevel none (some "auto") sampleHighResult = .HIGH
    ∧ resolveMaturityLevel (some "full") none sampleHighResult = .LOW
    ∧ resolveMaturityLevel (some "LOW") none sampleHighResult = .LOW :=
  ⟨resolveMaturityLevel_spec.1 "HIGH" (some "auto") (by decide),
   resolveMaturityLevel_spec.2.1 "MEDIUM" (by decide),
   resolveMaturityLevel_spec.2.2.2.2.2.2.2.2 sampleHighResult rfl,
   resolveMaturityLevel_spec.2.2.2.2.2.2.2.1 (some "full") none sampleHighResult
     (by decide),
   resolveMaturityLevel_spec.2.2.2.2.1 (some "LOW") none sampleHighResult
     (by decide)⟩

/-- C10: a first-present (non-empty) maturity-mode value outside
`{"auto","LOW","MEDIUM","HIGH"}` (hence in particular outside
`{"auto","LOW","MEDIUM","HIGH","full"}`) falls into the default branch and
yields `LOW`, and an empty-string CLI flag is treated as absent. -/
theorem resolveMaturityLevel_default_low :
    (∀ (cli cfg : Option String) (a : MaturityResult) (s : String),
      effectiveMode cli cfg = s →
      s ≠ "auto" → s ≠ "LOW" → s ≠ "MEDIUM" → s ≠ "HIGH" →
      resolveMaturityLevel cli cfg a = .LOW)
    ∧ (∀ (cfg : Option String) (a : MaturityResult),
      resolveMaturityLevel (some "") cfg a = resolveMaturityLevel none cfg a) := by
  constructor
  · intro cli cfg a s hs h1 h2 h3 h4
    simp [resolveMaturityLevel, hs, h1, h2, h3, h4]
  · intro cfg a
    simp [resolveMaturityLevel, effectiveMode, jsStrOr]

/-- C10 witness: `--maturity banana` resolves to `LOW`, and an empty CLI
flag defers to the config. -/
theorem resolveMaturityLevel_default_low_witness :
    resolveMaturityLevel (some "banana") none sampleHighResult = .LOW
    ∧ resolveMaturityLevel (some "") (some "HIGH") sampleHighResult
      = resolveMaturityLevel none (some "HIGH") sampleHighResult :=
  ⟨resolveMaturityLevel_default_low.1 (some "banana") none sampleHighResult
      "banana" (by decide) (by decide) (by decide) (by decide) (by decide),
   resolveMaturityLevel_default_low.2 (some "HIGH") sampleHighResult⟩

/-! ## Claim theorems: workflow state machine and mode fail-safe -/

/-- C6 counterexample: observing agent `"a"` with no active run and a
configured single-step workflow `("w", ["a"])` persists a run state whose
`currentStepIndex` (1) equals its step count (1) — the state file is written,
not deleted, so a persisted run state with `currentStepIndex` equal to the
step count does exist. -/
theorem workflowTransition_singleStep_persists :
    ((workflowTransition [("w", ["a"])] none "a").1).map
        (fun st => decide (st.currentStepIndex = st.steps.length)) = some true := by
  decide

/-- C6 (amended): in the advancement branch, the run state is deleted exactly
when the incremented `currentStepIndex` reaches the step count; the creation
branch always persists the new run state (with `currentStepIndex = 1`), even
for a single-step workflow. -/
theorem workflowTransition_deletion_iff :
    (∀ (wfs : List (String × List String)) (s : WfState) (agent : String),
      s.active = true → s.steps.get? s.currentStepIndex = some agent →
      ((workflowTransition wfs (some s) agent).1 = none ↔
        s.currentStepIndex + 1 = s.steps.length))
    ∧ (∀ (wfs : List (String × List String)) (agent name : String)
        (steps : List String),
      wfs.find? (fun w => w.2.head? = some agent) = some (name, steps) →
      (workflowTransition wfs none agent).1 =
        some { active := true, workflowName := name, steps := steps,
               currentStepIndex := 1, completedSteps := [agent] }) := by
  constructor
  · intro wfs s agent hact hexp
    have hlt : s.currentStepIndex < s.steps.length := by
      obtain ⟨h, -⟩ := List.get?_eq_some.1 hexp
      exact h
    simp only [workflowTransition, hact, if_true, hexp]
    split_ifs with hle
    · simp only [true_iff]
      omega
    · simp only [false_iff]
      omega
  · intro wfs agent name steps hfind
    simp [workflowTransition, wfCreate, hfind]

/-- C6 witness: advancing the last step of a two-step run deletes the state;
a matching first step creates and persists a fresh run. -/
theorem workflowTransition_deletion_iff_witness :
    ((workflowTransition []
        (some { active := true, workflowName := "w", steps := ["a", "b"],
                currentStepIndex := 1, completedSteps := ["a"] }) "b").1 = none)
    ∧ (workflowTransition [("w", ["x", "y"])] none "x").1 =
        some { active := true, workflowName := "w", steps := ["x", "y"],
               currentStepIndex := 1, completedSteps := ["x"] } :=
  ⟨(workflowTransition_deletion_iff.1 []
      { active := true, workflowName := "w", steps := ["a", "b"],
        currentStepIndex := 1, completedSteps := ["a"] } "b" rfl (by decide)).mpr
      rfl,
   workflowTransition_deletion_iff.2 [("w", ["x", "y"])] "x" "w" ["x", "y"]
     (by decide)⟩

/-- C7: during an active run, observing an agent that is not the expected
next step (`steps[currentStepIndex]`, including the out-of-range case) leaves
the persisted state untouched and emits no advisory. -/
theorem workflowTransition_out_of_order_inert
    (wfs : List (String × List String)) (s : WfState) (agent : String)
    (hact : s.active = true)
    (hmm : s.steps.get? s.currentStepIndex ≠ some agent) :
    workflowTransition wfs (some s) agent = (some s, none) := by
  simp only [workflowTransition, hact, if_true]
  cases hexp : s.steps.get? s.currentStepIndex with
  | none => rfl
  | some expected =>
      have hne : agent ≠ expected := fun h => hmm (by rw [hexp, h])
      simp [hne]

/-- C7 witness: agent `"c"` observed while step 1 of `["a","b"]` is expected
changes nothing and emits nothing. -/
theorem workflowTransition_out_of_order_inert_witness :
    workflowTransition [("w", ["a", "b"])]
      (some { active := true, workflowName := "w", steps := ["a", "b"],
              currentStepIndex := 1, completedSteps := ["a"] }) "c"
    = (some { active := true, workflowName := "w", steps := ["a", "b"],
              currentStepIndex := 1, completedSteps := ["a"] }, none) :=
  workflowTransition_out_of_order_inert [("w", ["a", "b"])] _ "c" rfl (by decide)

/-- C8: an absent or unreadable `.omcsa/mode.json` makes `readModeSync`
return `"standalone"` — never `"omc-only"` or `"integrated"` — so the hook's
mode gate does not yield and the hook proceeds to enforce. -/
theorem readModeSync_failsafe :
    readModeSync .absent = "standalone"
    ∧ readModeSync .unreadable = "standalone"
    ∧ readModeSync .absent ≠ "omc-only"
    ∧ readModeSync .absent ≠ "integrated"
    ∧ readModeSync .unreadable ≠ "omc-only"
    ∧ readModeSync .unreadable ≠ "integrated"
    ∧ hookYields (readModeSync .absent) = false
    ∧ hookYields (readModeSync .unreadable) = false := by
  refine ⟨rfl, rfl, by decide, by decide, by decide, by decide, by decide, by decide⟩

/-! ## Claim theorems: document update idempotence -/

set_option maxRecDepth 10000 in
/-- C4 counterexample: a host document consisting of the end marker followed
by the start marker makes `updateClaudeMdContent` non-idempotent (the code
never checks that the first start-marker occurrence precedes the first
end-marker occurrence), even for a well-formed generated prompt that begins
with the start marker and ends with the end marker. -/
theorem updateClaudeMdContent_not_idempotent :
    updateClaudeMdContent
        (updateClaudeMdContent (OMCSA_MARKER_END ++ OMCSA_MARKER_START)
          (OMCSA_MARKER_START ++ '\n' :: OMCSA_MARKER_END))
        (OMCSA_MARKER_START ++ '\n' :: OMCSA_MARKER_END)
      ≠ updateClaudeMdContent (OMCSA_MARKER_END ++ OMCSA_MARKER_START)
          (OMCSA_MARKER_START ++ '\n' :: OMCSA_MARKER_END) := by
  decide

/-- C4 (amended): `updateClaudeMdContent` is idempotent for every generated
orchestrator prompt (beginning with the start marker, with its only
end-marker occurrence at its tail) and every host document that either
contains both markers with the first start-marker occurrence before the
first end-marker occurrence, or contains neither marker. -/
theorem updateClaudeMdContent_idempotent (doc p : List Char)
    (hp : OMCSA_MARKER_START <+: p)
    (hpE : occursAt OMCSA_MARKER_END p (p.length - OMCSA_MARKER_END.length))
    (hpEmin : ∀ j, j < p.length - OMCSA_MARKER_END.length →
      ¬ occursAt OMCSA_MARKER_END p j)
    (hdoc : (∃ si ei, firstIdx OMCSA_MARKER_START doc = some si ∧
        firstIdx OMCSA_MARKER_END doc = some ei ∧ si < ei) ∨
      (firstIdx OMCSA_MARKER_START doc = none ∧
       firstIdx OMCSA_MARKER_END doc = none)) :
    updateClaudeMdContent (updateClaudeMdContent doc p) p
      = updateClaudeMdContent doc p := by
  have hSne := markerStart_ne_nil
  have hEne := markerEnd_ne_nil
  have hSp : OMCSA_MARKER_START.length ≤ p.length := hp.length_le
  have hEp : OMCSA_MARKER_END.length ≤ p.length :=
    le_trans markerEnd_length_le hSp
  rcases hdoc with ⟨si, ei, hS, hE, hlt⟩ | ⟨hSn, hEn⟩
  · -- replace branch
    obtain ⟨hSocc, hSmin⟩ := (firstIdx_eq_some_iff hSne doc si).mp hS
    obtain ⟨hEocc, hEmin⟩ := (firstIdx_eq_some_iff hEne doc ei).mp hE
    have hupd1 : updateClaudeMdContent doc p
        = doc.take si ++ (p ++ doc.drop (ei + OMCSA_MARKER_END.length)) := by
      simp [updateClaudeMdContent, hS, hE]
    have hblen : (doc.take si).length = si := by
      rw [List.length_take]
      have := hSocc.length_le
      rw [List.length_drop] at this
      have hpos := List.length_pos.mpr hSne
      omega
    have hbS : ∀ j, ¬ occursAt OMCSA_MARKER_START (doc.take si) j := by
      intro j hj
      obtain ⟨hjd, hjm⟩ := occursAt_of_take hSne hj
      exact hSmin j hjm hjd
    have hbE : ∀ j, ¬ occursAt OMCSA_MARKER_END (doc.take si) j := by
      intro j hj
      obtain ⟨hjd, hjm⟩ := occursAt_of_take hEne hj
      exact hEmin j (by omega) hjd
    obtain ⟨hpEocc, hpEminx⟩ :=
      markerEnd_occ_in_append p (doc.drop (ei + OMCSA_MARKER_END.length))
        hEp hpE hpEmin
    have hfS : firstIdx OMCSA_MARKER_START
        (doc.take si ++ (p ++ doc.drop (ei + OMCSA_MARKER_END.length)))
        = some ((doc.take si).length) := by
      have := firstIdx_append_occ (doc.take si)
        (p ++ doc.drop (ei + OMCSA_MARKER_END.length)) 0 hSne
        (occursAt_zero.mpr (hp.trans (List.prefix_append _ _)))
        (fun j hj => absurd hj (by omega)) hbS
        (straddle_free_of_markerPre p _ hp (le_refl _) markerStart_overlapFree)
      simpa using this
    have hfE : firstIdx OMCSA_MARKER_END
        (doc.take si ++ (p ++ doc.drop (ei + OMCSA_MARKER_END.length)))
        = some ((doc.take si).length + (p.length - OMCSA_MARKER_END.length)) :=
      firstIdx_append_occ (doc.take si)
        (p ++ doc.drop (ei + OMCSA_MARKER_END.length)) _ hEne hpEocc hpEminx hbE
        (straddle_free_of_markerPre p _ hp markerEnd_length_le
          markerEnd_markerStart_crossFree)
    rw [hupd1]
    simp only [updateClaudeMdContent, hfS, hfE]
    have hidx : (doc.take si).length + (p.length - OMCSA_MARKER_END.length)
        + OMCSA_MARKER_END.length = (doc.take si).length + p.length := by
      omega
    rw [List.take_left, hidx, drop_two_chunks, List.append_assoc]
  · -- append branch
    have docS := (firstIdx_eq_none_iff hSne doc).mp hSn
    have docE := (firstIdx_eq_none_iff hEne doc).mp hEn
    set sep : List Char :=
      if doc.getLast? = some '\n' then ['\n'] else ['\n', '\n'] with hsep
    have hsepnl : ∀ c ∈ sep, c = '\n' := by
      rw [hsep]
      split_ifs <;> intro c hc <;> simp_all
    have hupd1 : updateClaudeMdContent doc p
        = (doc ++ sep) ++ (p ++ ['\n']) := by
      simp [updateClaudeMdContent, hSn, hEn, hsep]
    have haS : ∀ j, ¬ occursAt OMCSA_MARKER_START (doc ++ sep) j :=
      no_occursAt_append_nl hSne newline_not_mem_markerStart doc sep docS hsepnl
    have haE : ∀ j, ¬ occursAt OMCSA_MARKER_END (doc ++ sep) j :=
      no_occursAt_append_nl hEne newline_not_mem_markerEnd doc sep docE hsepnl
    obtain ⟨hpEocc, hpEminx⟩ :=
      markerEnd_occ_in_append p ['\n'] hEp hpE hpEmin
    have hfS : firstIdx OMCSA_MARKER_START ((doc ++ sep) ++ (p ++ ['\n']))
        = some ((doc ++ sep).length) := by
      have := firstIdx_append_occ (doc ++ sep) (p ++ ['\n']) 0 hSne
        (occursAt_zero.mpr (hp.trans (List.prefix_append _ _)))
        (fun j hj => absurd hj (by omega)) haS
        (straddle_free_of_markerPre p _ hp (le_refl _) markerStart_overlapFree)
      simpa using this
    have hfE : firstIdx OMCSA_MARKER_END ((doc ++ sep) ++ (p ++ ['\n']))
        = some ((doc ++ sep).length + (p.length - OMCSA_MARKER_END.length)) :=
      firstIdx_append_occ (doc ++ sep) (p ++ ['\n']) _ hEne hpEocc hpEminx haE
        (straddle_free_of_markerPre p _ hp markerEnd_length_le
          markerEnd_markerStart_crossFree)
    rw [hupd1]
    simp only [updateClaudeMdContent, hfS, hfE]
    have hidx : (doc ++ sep).length + (p.length - OMCSA_MARKER_END.length)
        + OMCSA_MARKER_END.length = (doc ++ sep).length + p.length := by
      omega
    rw [List.take_left, hidx, drop_two_chunks, List.append_assoc]

/-- C4 witness: inserting a minimal well-formed prompt into a marker-free
document twice equals inserting it once. -/
theorem updateClaudeMdContent_idempotent_witness :
    updateClaudeMdContent
        (updateClaudeMdContent "# My project\n".toList
          (OMCSA_MARKER_START ++ '\n' :: OMCSA_MARKER_END))
        (OMCSA_MARKER_START ++ '\n' :: OMCSA_MARKER_END)
      = updateClaudeMdContent "# My project\n".toList
          (OMCSA_MARKER_START ++ '\n' :: OMCSA_MARKER_END) :=
  updateClaudeMdContent_idempotent "# My project\n".toList
    (OMCSA_MARKER_START ++ '\n' :: OMCSA_MARKER_END)
    (List.prefix_append _ _) (by decide) (by decide)
    (Or.inr ⟨by decide, by decide⟩)

/-! ## Claim theorems: section removal -/

/-- Filtering with a predicate false on `'\n'` ignores the newline-run
collapsing: non-newline content is preserved exactly. -/
theorem filter_collapseRun (q : Char → Bool) (hnl : q '\n' = false) :
    ∀ (s : List Char) (n : ℕ), (collapseRun n s).filter q = s.filter q := by
  intro s
  induction s with
  | nil =>
      intro n
      simp [collapseRun, List.filter_replicate, hnl]
  | cons c t ih =>
      intro n
      by_cases hc : c = '\n'
      · subst hc
        simp only [collapseRun, if_pos rfl, List.filter_cons, hnl]
        simpa using ih (n + 1)
      · simp only [collapseRun, if_neg hc, List.filter_append,
          List.filter_replicate, hnl]
        simp [List.filter_cons, ih, hnl]

/-- All newline runs in the output of `collapseRun` have length at most 2. -/
theorem newlineRunBound_replicate (m : ℕ) (hm : m ≤ 2) :
    newlineRunBound 0 (List.replicate m '\n') = true := by
  interval_cases m <;> decide

theorem newlineRunBound_replicate_append (m : ℕ) (hm : m ≤ 2) (c : Char)
    (hc : c ≠ '\n') (X : List Char) :
    newlineRunBound 0 (List.replicate m '\n' ++ c :: X)
      = newlineRunBound 0 X := by
  interval_cases m <;> simp [newlineRunBound, List.replicate, hc]

theorem newlineRunBound_collapseRun :
    ∀ (s : List Char) (n : ℕ), newlineRunBound 0 (collapseRun n s) = true := by
  intro s
  induction s with
  | nil =>
      intro n
      exact newlineRunBound_replicate _ (min_le_right n 2)
  | cons c t ih =>
      intro n
      by_cases hc : c = '\n'
      · subst hc
        simp only [collapseRun, if_pos rfl]
        exact ih (n + 1)
      · simp only [collapseRun, if_neg hc]
        rw [newlineRunBound_replicate_append _ (min_le_right n 2) c hc]
        exact ih 0

/-- Dropping a whitespace run does not change the non-whitespace content. -/
theorem filter_dropWhile (q p : Char → Bool)
    (h : ∀ c, p c = true → q c = false) (s : List Char) :
    (s.dropWhile p).filter q = s.filter q := by
  induction s with
  | nil => rfl
  | cons c t ih =>
      rw [List.dropWhile_cons]
      by_cases hc : p c = true
      · rw [if_pos hc, ih, List.filter_cons, h c hc]
        simp
      · rw [if_neg hc]

/-- Trimming does not change the non-whitespace content. -/
theorem filter_trimWs (q : Char → Bool)
    (h : ∀ c, isJsWhitespace c = true → q c = false) (s : List Char) :
    (trimWs s).filter q = s.filter q := by
  unfold trimWs
  rw [List.filter_reverse, filter_dropWhile q _ h, List.filter_reverse,
    List.reverse_reverse, filter_dropWhile q _ h]

/-- The head surviving `dropWhile p` does not satisfy `p`. -/
theorem head?_dropWhile_false (p : Char → Bool) (l : List Char) (c : Char)
    (h : (l.dropWhile p).head? = some c) : p c = false := by
  induction l with
  | nil => simp [List.dropWhile] at h
  | cons a t ih =>
      rw [List.dropWhile_cons] at h
      by_cases ha : p a = true
      · rw [if_pos ha] at h
        exact ih h
      · rw [if_neg ha] at h
        simp only [List.head?_cons, Option.some.injEq] at h
        subst h
        exact Bool.not_eq_true _ ▸ Bool.of_not_eq_true ha

/-- The last character of a trimmed string is not whitespace. -/
theorem trimWs_getLast_not_ws (s : List Char) (c : Char)
    (h : (trimWs s).getLast? = some c) : isJsWhitespace c = false := by
  unfold trimWs at h
  rw [List.getLast?_reverse] at h
  exact head?_dropWhile_false _ _ _ h

/-- Appending one newline to a string whose last character is not a newline
yields a string ending in exactly one newline. -/
theorem ends_exactly_one_newline (y : List Char)
    (hy : ∀ c, y.getLast? = some c → c ≠ '\n') :
    (y ++ ['\n']).getLast? = some '\n'
    ∧ ¬ (['\n', '\n'] <:+ (y ++ ['\n'])) := by
  refine ⟨List.getLast?_concat .., ?_⟩
  intro hsuf
  rw [← List.reverse_prefix] at hsuf
  simp only [List.reverse_append, List.reverse_cons, List.reverse_nil,
    List.nil_append, List.singleton_append] at hsuf
  rw [List.cons_prefix_cons] at hsuf
  obtain ⟨-, hsuf⟩ := hsuf
  obtain ⟨t, ht⟩ := hsuf
  rcases hyr : y.reverse with _ | ⟨d, r⟩
  · rw [hyr] at ht
    cases ht
  · rw [hyr] at ht
    injection ht with h1 h2
    have hd : y.getLast? = some d := by
      rw [← List.head?_reverse, hyr]
      rfl
    exact hy d hd h1.symm

set_option maxRecDepth 10000 in
/-- C5 counterexample: `removeOmcsaSection` calls `.trim()`, which strips
*leading* whitespace as well.  On `" x" ++ START ++ END` the leading space —
content outside the marked region and not trailing whitespace — is removed:
the result is `"x\n"`, not `" x\n"`, so the claim's "trims trailing
whitespace while preserving all other content" fails. -/
theorem removeOmcsaSection_strips_leading :
    removeOmcsaSection
        (' ' :: 'x' :: (OMCSA_MARKER_START ++ OMCSA_MARKER_END))
      = ['x', '\n']
    ∧ ' ' ∉ removeOmcsaSection
        (' ' :: 'x' :: (OMCSA_MARKER_START ++ OMCSA_MARKER_END)) := by
  constructor
  · decide
  · decide

/-- C5 (amended): for a document with both markers, `removeOmcsaSection`
excises from the start marker through the end marker, collapses every
newline run to at most two, trims *leading and trailing* whitespace while
preserving all non-whitespace content, and ends in exactly one trailing
newline; a document lacking either marker is returned unchanged. -/
theorem removeOmcsaSection_spec (content : List Char) :
    ((firstIdx OMCSA_MARKER_START content = none ∨
      firstIdx OMCSA_MARKER_END content = none) →
      removeOmcsaSection content = content)
    ∧ (∀ si ei, firstIdx OMCSA_MARKER_START content = some si →
        firstIdx OMCSA_MARKER_END content = some ei →
        removeOmcsaSection content
          = trimWs (collapseNewlines (content.take si ++
              content.drop (ei + OMCSA_MARKER_END.length))) ++ ['\n']
        ∧ (removeOmcsaSection content).filter (fun c => !(isJsWhitespace c))
          = (content.take si ++
              content.drop (ei + OMCSA_MARKER_END.length)).filter
              (fun c => !(isJsWhitespace c))
        ∧ newlineRunBound 0 (collapseNewlines (content.take si ++
            content.drop (ei + OMCSA_MARKER_END.length))) = true
        ∧ (removeOmcsaSection content).getLast? = some '\n'
        ∧ ¬ (['\n', '\n'] <:+ removeOmcsaSection content)) := by
  constructor
  · intro h
    cases hS : firstIdx OMCSA_MARKER_START content with
    | none => simp [removeOmcsaSection, hS]
    | some si =>
        rcases h with h | h
        · rw [hS] at h
          cases h
        · simp [removeOmcsaSection, hS, h]
  · intro si ei hS hE
    have hqws : ∀ c, isJsWhitespace c = true →
        (fun c => !(isJsWhitespace c)) c = false := by
      intro c hc
      simp [hc]
    have hpipe : removeOmcsaSection content
        = trimWs (collapseNewlines (content.take si ++
            content.drop (ei + OMCSA_MARKER_END.length))) ++ ['\n'] := by
      simp [removeOmcsaSection, hS, hE]
    have hqnl : (fun c => !(isJsWhitespace c)) '\n' = false := by
      simp [isJsWhitespace]
    refine ⟨hpipe, ?_, ?_, ?_, ?_⟩
    · rw [hpipe, List.filter_append]
      rw [filter_trimWs _ hqws]
      unfold collapseNewlines
      rw [filter_collapseRun _ hqnl]
      simp [hqnl]
    · exact newlineRunBound_collapseRun _ 0
    · rw [hpipe]
      exact (ends_exactly_one_newline _ (fun c hc hceq => by
        have := trimWs_getLast_not_ws _ _ hc
        subst hceq
        simp [isJsWhitespace] at this)).1
    · rw [hpipe]
      exact (ends_exactly_one_newline _ (fun c hc hceq => by
        have := trimWs_getLast_not_ws _ _ hc
        subst hceq
        simp [isJsWhitespace] at this)).2

set_option maxRecDepth 10000 in
/-- C5 witness: a concrete document with both markers. -/
theorem removeOmcsaSection_spec_witness :
    removeOmcsaSection ('a' :: '\n' :: (OMCSA_MARKER_START ++
        '\n' :: OMCSA_MARKER_END))
      = trimWs (collapseNewlines (('a' :: '\n' :: (OMCSA_MARKER_START ++
          '\n' :: OMCSA_MARKER_END)).take 2 ++
          ('a' :: '\n' :: (OMCSA_MARKER_START ++
            '\n' :: OMCSA_MARKER_END)).drop
            ((OMCSA_MARKER_START.length + 3) + OMCSA_MARKER_END.length)))
        ++ ['\n']
    ∧ (removeOmcsaSection ('a' :: '\n' :: (OMCSA_MARKER_START ++
        '\n' :: OMCSA_MARKER_END))).getLast? = some '\n' :=
  ⟨((removeOmcsaSection_spec _).2 2 (OMCSA_MARKER_START.length + 3)
      (by decide) (by decide)).1,
   ((removeOmcsaSection_spec _).2 2 (OMCSA_MARKER_START.length + 3)
      (by decide) (by decide)).2.2.2.1⟩

/-! ## Claim theorems: agent-name matching safety -/

/-- C9: the agent-name-reference signal selects plain case-insensitive
substring search for every name outside the safe set (so no regex is ever
built from such a name and the analysis is total on them — e.g. `"c++dev"`,
whose raw regex would be invalid), and the word-boundary case-insensitive
pattern for names inside the safe set; concretely, `"c++dev"` is unsafe yet
found by substring search, while the safe name `"dev"` does not match inside
`"devops"` (word boundary), although a substring search would. -/
theorem agentNameMatched_branch (content name : List Char) :
    (safeAgentName name = false →
      agentNameMatched name content = containsCI content name)
    ∧ (safeAgentName name = true →
      agentNameMatched name content = wordBoundaryMatch name content)
    ∧ safeAgentName "c++dev".toList = false
    ∧ agentNameMatched "c++dev".toList "scan C++dev references".toList = true
    ∧ safeAgentName "dev".toList = true
    ∧ agentNameMatched "dev".toList "devops".toList = false
    ∧ containsCI "devops".toList "dev".toList = true
    ∧ agentNameMatched "dev".toList "a dev agent".toList = true := by
  refine ⟨?_, ?_, by decide, by decide, by decide, by decide, by decide,
    by decide⟩
  · intro h
    simp [agentNameMatched, h]
  · intro h
    simp [agentNameMatched, h]

/-- C9 witness: for the unsafe name `"c++dev"` the matcher is the substring
search. -/
theorem agentNameMatched_branch_witness :
    agentNameMatched "c++dev".toList "use c++dev here".toList
      = containsCI "use c++dev here".toList "c++dev".toList :=
  (agentNameMatched_branch "use c++dev here".toList "c++dev".toList).1
    (by decide)

end OMCSA
